import Mathlib

/-!
Verification development for the `sodatte` terminal portfolio dashboard
(`src/main.rs`).

The Rust program is embedded shallowly:

* `AssetType` / `AssetConfig` mirror the config data model.
* JSON response bodies are modelled by the inductive `Json`;
  `serde` objects (`HashMap<String, _>`) become association lists with
  exact (case-sensitive) `List.lookup`.
* The network is an oracle `net : String → Option Json` mapping a request
  URL to a decoded body (`none` = request/transport failure).
* Prices and quantities (`f64` in the source) are modelled as exact
  rationals; the arithmetic the claims exercise is exact in `f64` as well.
* `fetch_price`, `refresh_portfolio` and the row construction of `draw_ui`
  are translated function-by-function from the source.
* The concurrent fan-out/fan-in of `refresh_portfolio`
  (`task::spawn` + `join_all`) is modelled with an explicit completion
  order `π` (a permutation of the task indices): results arrive in the
  order `π` and are joined back by task index, as `join_all` guarantees.
* The dashboard loop of `main` is modelled as a fuel-indexed trace
  semantics over per-iteration environment outcomes (draw success/failure,
  poll outcome), recording an effect trace (tick, refresh, draw, poll,
  restore).
-/

set_option autoImplicit false

/-- `enum AssetType { Stock, Crypto, Commodity }` from the source. -/
inductive AssetType where
  | Stock : AssetType
  | Crypto : AssetType
  | Commodity : AssetType
deriving DecidableEq

/-- `struct AssetConfig { kind, symbol, quantity, api }` from the source.
`quantity : f64` is modelled as an exact rational. -/
structure AssetConfig where
  kind : AssetType
  symbol : String
  quantity : ℚ
  api : Option String
deriving DecidableEq

/-- JSON values, as decoded by `serde_json`; objects are association
lists of fields. -/
inductive Json where
  | num : ℚ → Json
  | str : String → Json
  | bool : Bool → Json
  | null : Json
  | arr : List Json → Json
  | obj : List (String × Json) → Json

/-- The hard-coded CoinMarketCap key from `fetch_price`. -/
def API_KEY : String := "0ac51e33-41f2-414a-90c4-3301efbbce7c"

/-- The stock URL template of `fetch_price`. -/
def stock_url (symbol : String) : String :=
  "https://example.com/stock/" ++ symbol

/-- The crypto URL template of `fetch_price`. -/
def crypto_url (symbol : String) : String :=
  "https://pro-api.coinmarketcap.com/v1/cryptocurrency/quotes/latest?symbol="
    ++ symbol ++ "&CMC_PRO_API_KEY=" ++ API_KEY

/-- The commodity URL template of `fetch_price`. -/
def commodity_url (symbol : String) : String :=
  "https://example.com/commodity/" ++ symbol

/-- URL resolution at the top of `fetch_price`: a custom `api` endpoint is
used verbatim, otherwise the per-kind template is instantiated. -/
def resolve_url (a : AssetConfig) : String :=
  match a.api with
  | some custom => custom
  | none =>
    match a.kind with
    | AssetType.Stock => stock_url a.symbol
    | AssetType.Crypto => crypto_url a.symbol
    | AssetType.Commodity => commodity_url a.symbol

/-- `struct CmcRespInner { quote: HashMap<String, serde_json::Value> }`. -/
structure CmcRespInner where
  quote : List (String × Json)

/-- `struct CmcResponse { data: HashMap<String, CmcRespInner> }`. -/
structure CmcResponse where
  data : List (String × CmcRespInner)

/-- Deserializing one `CmcRespInner`: the value must be an object whose
`quote` field is itself an object (values kept as raw JSON). -/
def decodeInner : Json → Option CmcRespInner
  | Json.obj fs =>
    match fs.lookup "quote" with
    | some (Json.obj qs) => some ⟨qs⟩
    | _ => none
  | _ => none

/-- Deserializing the entries of the `data` map: every entry must decode
as a `CmcRespInner` (serde fails the whole map otherwise). -/
def decodeDataEntries : List (String × Json) → Option (List (String × CmcRespInner))
  | [] => some []
  | (k, v) :: rest =>
    match decodeInner v with
    | none => none
    | some inner =>
      match decodeDataEntries rest with
      | none => none
      | some tail => some ((k, inner) :: tail)

/-- Deserializing a `CmcResponse`: the body must be an object with a
`data` field that is an object of `CmcRespInner` entries. -/
def decodeCmcResponse : Json → Option CmcResponse
  | Json.obj fs =>
    match fs.lookup "data" with
    | some (Json.obj ds) =>
      match decodeDataEntries ds with
      | some entries => some ⟨entries⟩
      | none => none
    | _ => none
  | _ => none

/-- `serde_json::Value::get` on an object. -/
def jsonGet (v : Json) (k : String) : Option Json :=
  match v with
  | Json.obj fs => fs.lookup k
  | _ => none

/-- `serde_json::Value::as_f64`: succeeds only on numbers. -/
def asF64 : Json → Option ℚ
  | Json.num q => some q
  | _ => none

/-- Deserializing `struct Resp { price: f64 }`: the body must be an object
whose `price` field is a number (extra fields are ignored). -/
def decodeResp : Json → Option ℚ
  | Json.obj fs =>
    match fs.lookup "price" with
    | some (Json.num q) => some q
    | _ => none
  | _ => none

/-- `fetch_price(client, a)`: resolve the URL, perform the request through
the network oracle, then decode along the branch selected by `a.kind`
(crypto: nested `data[symbol].quote["USD"].price`; otherwise flat
`{price}`). Error strings mirror the `.context(...)` messages. -/
def fetch_price (net : String → Option Json) (a : AssetConfig) : Except String ℚ :=
  match a.kind with
  | AssetType.Crypto =>
    match net (resolve_url a) with
    | none => Except.error "request failed"
    | some body =>
      match decodeCmcResponse body with
      | none => Except.error "decode error"
      | some resp =>
        match resp.data.lookup a.symbol with
        | none => Except.error "symbol missing"
        | some inner =>
          match inner.quote.lookup "USD" with
          | none => Except.error "USD quote missing"
          | some usd =>
            match jsonGet usd "price" with
            | none => Except.error "price missing"
            | some pj =>
              match asF64 pj with
              | none => Except.error "not f64"
              | some p => Except.ok p
  | _ =>
    match net (resolve_url a) with
    | none => Except.error "request failed"
    | some body =>
      match decodeResp body with
      | none => Except.error "decode error"
      | some p => Except.ok p

/-- The body of one spawned task in `refresh_portfolio`:
`(asset, fetch_price(..).unwrap_or(0.0))`. The task's fetch outcome is
supplied by `fetchf`, indexed by the task's spawn position so that each
concurrent fetch may succeed or fail independently. -/
def fetchTask (fetchf : ℕ → AssetConfig → Except String ℚ)
    (i : ℕ) (a : AssetConfig) : AssetConfig × ℚ :=
  (a, ((fetchf i a).toOption).getD 0)

/-- The results of the spawned tasks in the completion order `π`: task `j`
(if it exists) delivers `(j, fetchTask fetchf j cfg[j])` when it finishes. -/
def arrivalResults (fetchf : ℕ → AssetConfig → Except String ℚ)
    (cfg : List AssetConfig) (π : List ℕ) : List (ℕ × (AssetConfig × ℚ)) :=
  π.filterMap (fun j => cfg[j]?.map (fun a => (j, fetchTask fetchf j a)))

/-- `join_all`'s guarantee: the joined vector reads the per-task result
slots back in task order, ignoring arrival order. -/
def joinByIndex (n : ℕ) (arr : List (ℕ × (AssetConfig × ℚ))) :
    List (AssetConfig × ℚ) :=
  (List.range n).filterMap (fun i => arr.lookup i)

/-- `refresh_portfolio(client, cfg)`: spawn one task per descriptor,
let them complete in the order `π`, and join the results by task index. -/
def refresh_portfolio (fetchf : ℕ → AssetConfig → Except String ℚ)
    (cfg : List AssetConfig) (π : List ℕ) : List (AssetConfig × ℚ) :=
  joinByIndex cfg.length (arrivalResults fetchf cfg π)

/-- Sequential reference semantics of the fan-out/fan-in: the `i`-th row
is the `i`-th task's result, in descriptor order. -/
def refresh_go (fetchf : ℕ → AssetConfig → Except String ℚ) :
    ℕ → List AssetConfig → List (AssetConfig × ℚ)
  | _, [] => []
  | i, a :: rest => fetchTask fetchf i a :: refresh_go fetchf (i + 1) rest

/-- Completion-order-free form of `refresh_portfolio`. -/
def refresh_canonical (fetchf : ℕ → AssetConfig → Except String ℚ)
    (cfg : List AssetConfig) : List (AssetConfig × ℚ) :=
  refresh_go fetchf 0 cfg

/-- `format!("{:?}", kind)` on the derived `Debug` of `AssetType`. -/
def kindDebug : AssetType → String
  | AssetType.Stock => "Stock"
  | AssetType.Crypto => "Crypto"
  | AssetType.Commodity => "Commodity"

/-- `a.quantity.to_string()`: display of the quantity. Exact for the
integral quantities the program's examples use; printing a non-integral
binary `f64` in shortest-decimal form is outside the rational embedding. -/
def qtyDisplay (q : ℚ) : String :=
  if q.den = 1 then toString q.num else toString q

/-- Print `n` hundredths as a two-decimal string. -/
def fmt2aux (n : ℕ) : String :=
  toString (n / 100) ++ "." ++
    (if n % 100 < 10 then "0" ++ toString (n % 100) else toString (n % 100))

/-- Print `n` hundredths, with its sign, as a two-decimal string. -/
def fmt2int (n : ℤ) : String :=
  if n < 0 then "-" ++ fmt2aux (-n).toNat else fmt2aux n.toNat

/-- `format!("{:.2}", x)`: round `x` to the nearest hundredth at render
time and print with exactly two decimal places. -/
def fmt2 (q : ℚ) : String :=
  fmt2int ⌊q * 100 + 1 / 2⌋

/-- The table body built by `draw_ui`: one row of five rendered cells per
snapshot entry, in snapshot order. -/
def draw_ui (rows : List (AssetConfig × ℚ)) : List (List String) :=
  rows.map (fun r =>
    [kindDebug r.1.kind, r.1.symbol, qtyDisplay r.1.quantity,
     fmt2 r.2, fmt2 (r.2 * r.1.quantity)])

/-- Key codes relevant to the input check in `main`. -/
inductive KeyCode where
  | qKey : KeyCode
  | esc : KeyCode
  | other : KeyCode
deriving DecidableEq

/-- Outcome of one `event::poll(100ms)` (and the `event::read` behind it)
in an iteration of the loop in `main`. -/
inductive PollOutcome where
  | pollErr : PollOutcome
  | noEvent : PollOutcome
  | readErr : PollOutcome
  | keyEvent : KeyCode → PollOutcome
  | otherEvent : PollOutcome
deriving DecidableEq

/-- Environment outcomes for one iteration of the dashboard loop:
whether `term.draw` succeeds, and what the input poll yields. -/
structure IterEnv where
  drawOk : Bool
  poll : PollOutcome
deriving DecidableEq

/-- Observable effects of the dashboard loop in `main`. -/
inductive Eff where
  | tick : Eff
  | refresh : Eff
  | draw : Eff
  | poll : Eff
  | restore : Eff
deriving DecidableEq

/-- How the `loop` in `main` was left. -/
inductive LoopExit where
  | errExit : LoopExit
  | quit : LoopExit
  | fuelOut : LoopExit
deriving DecidableEq

/-- The `loop` in `main`, iteration `i` onwards, with `fuel` remaining
iterations: tick, refresh, draw (a draw error propagates out via `?`),
then one input poll (a poll or read error propagates out via `?`; a
`q`/Esc key breaks the loop; anything else continues). -/
def runLoop (env : ℕ → IterEnv) : ℕ → ℕ → List Eff × LoopExit
  | _, 0 => ([], LoopExit.fuelOut)
  | i, fuel + 1 =>
    if (env i).drawOk then
      match (env i).poll with
      | PollOutcome.pollErr =>
        ([Eff.tick, Eff.refresh, Eff.draw, Eff.poll], LoopExit.errExit)
      | PollOutcome.readErr =>
        ([Eff.tick, Eff.refresh, Eff.draw, Eff.poll], LoopExit.errExit)
      | PollOutcome.keyEvent k =>
        if k = KeyCode.qKey ∨ k = KeyCode.esc then
          ([Eff.tick, Eff.refresh, Eff.draw, Eff.poll], LoopExit.quit)
        else
          (Eff.tick :: Eff.refresh :: Eff.draw :: Eff.poll ::
            (runLoop env (i + 1) fuel).1, (runLoop env (i + 1) fuel).2)
      | PollOutcome.noEvent =>
        (Eff.tick :: Eff.refresh :: Eff.draw :: Eff.poll ::
          (runLoop env (i + 1) fuel).1, (runLoop env (i + 1) fuel).2)
      | PollOutcome.otherEvent =>
        (Eff.tick :: Eff.refresh :: Eff.draw :: Eff.poll ::
          (runLoop env (i + 1) fuel).1, (runLoop env (i + 1) fuel).2)
    else
      ([Eff.tick, Eff.refresh, Eff.draw], LoopExit.errExit)

/-- How `main` exited (within the given fuel). -/
inductive MainExit where
  | ok : MainExit
  | err : MainExit
  | stillRunning : MainExit
deriving DecidableEq

/-- `main` after `setup_terminal`: run the loop; only the `break` path
(quit key) reaches the `restore_terminal(term)?` call — an `Err` from
draw/poll/read propagates out of `main` at once. -/
def main_model (env : ℕ → IterEnv) (fuel : ℕ) : List Eff × MainExit :=
  match runLoop env 0 fuel with
  | (tr, LoopExit.quit) => (tr ++ [Eff.restore], MainExit.ok)
  | (tr, LoopExit.errExit) => (tr, MainExit.err)
  | (tr, LoopExit.fuelOut) => (tr, MainExit.stillRunning)

/-- `Duration::from_secs(30)` of the ticker, in milliseconds. -/
def TICK_PERIOD_MS : ℕ := 30000

/-- `Duration::from_millis(100)` of `event::poll`. -/
def POLL_WAIT_MS : ℕ := 100

/-- Checker: along a trace, between every two consecutive `tick` effects
exactly one `poll` effect occurs. The state is the number of polls seen
since the last tick (`none` before the first tick). -/
def pollsBetween : List Eff → Option ℕ → Bool
  | [], _ => true
  | Eff.tick :: rest, none => pollsBetween rest (some 0)
  | Eff.tick :: rest, some c => (c == 1) && pollsBetween rest (some 0)
  | Eff.poll :: rest, none => pollsBetween rest none
  | Eff.poll :: rest, some c => pollsBetween rest (some (c + 1))
  | Eff.refresh :: rest, st => pollsBetween rest st
  | Eff.draw :: rest, st => pollsBetween rest st
  | Eff.restore :: rest, st => pollsBetween rest st

/-- The effects strictly between the first `tick` of a trace and the next
`tick` (or the end of the trace). -/
def gapAfterFirstTick (tr : List Eff) : List Eff :=
  ((tr.dropWhile (fun e => e != Eff.tick)).drop 1).takeWhile
    (fun e => e != Eff.tick)

/-- A throwaway descriptor used as a `getD` default. -/
def dA : AssetConfig := ⟨AssetType.Stock, "", 0, none⟩

theorem refresh_go_length (fetchf : ℕ → AssetConfig → Except String ℚ)
    (cfg : List AssetConfig) (k : ℕ) :
    (refresh_go fetchf k cfg).length = cfg.length := by
  induction cfg generalizing k with
  | nil => simp [refresh_go]
  | cons a tl ih => simp [refresh_go, ih]

theorem refresh_go_getElem? (fetchf : ℕ → AssetConfig → Except String ℚ)
    (cfg : List AssetConfig) (k i : ℕ) :
    (refresh_go fetchf k cfg)[i]?
      = cfg[i]?.map (fun a => fetchTask fetchf (k + i) a) := by
  induction cfg generalizing k i with
  | nil => simp [refresh_go]
  | cons a tl ih =>
    cases i with
    | zero => simp [refresh_go]
    | succ m =>
      simp only [refresh_go, List.getElem?_cons_succ, ih (k + 1) m]
      have h : k + 1 + m = k + (m + 1) := by omega
      rw [h]

theorem filterMap_eq_map_of_forall {α β : Type} (l : List α)
    (f : α → Option β) (g : α → β) (h : ∀ x ∈ l, f x = some (g x)) :
    l.filterMap f = l.map g := by
  induction l with
  | nil => simp
  | cons x tl ih =>
    rw [List.filterMap_cons, h x (List.mem_cons_self x tl), List.map_cons,
      ih (fun y hy => h y (List.mem_cons_of_mem x hy))]

theorem arrival_lookup (fetchf : ℕ → AssetConfig → Except String ℚ)
    (cfg : List AssetConfig) (π : List ℕ) (i : ℕ)
    (hmem : i ∈ π) (hlt : ∀ j ∈ π, j < cfg.length) :
    (arrivalResults fetchf cfg π).lookup i
      = cfg[i]?.map (fun a => fetchTask fetchf i a) := by
  induction π with
  | nil => cases hmem
  | cons j rest ih =>
    have hj : j < cfg.length := hlt j (List.mem_cons_self j rest)
    have ha : cfg[j]? = some cfg[j] := List.getElem?_eq_getElem hj
    rw [arrivalResults, List.filterMap_cons]
    simp only [ha, Option.map_some]
    by_cases hij : i = j
    · subst hij
      simp [List.lookup, ha]
    · have hmem' : i ∈ rest := by
        rcases List.mem_cons.mp hmem with h | h
        · exact absurd h hij
        · exact h
      have hlt' : ∀ j' ∈ rest, j' < cfg.length :=
        fun j' hj' => hlt j' (List.mem_cons_of_mem j hj')
      have hne : (i == j) = false := beq_false_of_ne hij
      simp only [List.lookup, hne]
      have hrec := ih hmem' hlt'
      rw [arrivalResults] at hrec
      exact hrec

theorem refresh_go_eq_map (fetchf : ℕ → AssetConfig → Except String ℚ)
    (cfg : List AssetConfig) (k : ℕ) :
    refresh_go fetchf k cfg
      = (List.range cfg.length).map
          (fun i => fetchTask fetchf (k + i) (cfg[i]?.getD dA)) := by
  induction cfg generalizing k with
  | nil => simp [refresh_go]
  | cons a tl ih =>
    rw [refresh_go]
    simp only [List.length_cons, List.range_succ_eq_map, List.map_cons,
      List.map_map]
    congr 1
    · simp
    · rw [ih (k + 1)]
      apply List.map_congr_left
      intro i _
      simp only [Function.comp_apply, List.getElem?_cons_succ]
      have h : k + 1 + i = k + (i + 1) := by omega
      rw [h]

theorem refresh_portfolio_eq_canonical
    (fetchf : ℕ → AssetConfig → Except String ℚ)
    (cfg : List AssetConfig) (π : List ℕ)
    (hπ : π.Perm (List.range cfg.length)) :
    refresh_portfolio fetchf cfg π = refresh_canonical fetchf cfg := by
  have hlt : ∀ j ∈ π, j < cfg.length := by
    intro j hj
    have hr : j ∈ List.range cfg.length := hπ.mem_iff.mp hj
    exact List.mem_range.mp hr
  have hsome : ∀ i ∈ List.range cfg.length,
      (fun i => (arrivalResults fetchf cfg π).lookup i) i
        = some ((fun i => fetchTask fetchf i (cfg[i]?.getD dA)) i) := by
    intro i hi
    have hmem : i ∈ π := hπ.mem_iff.mpr hi
    have hilen : i < cfg.length := List.mem_range.mp hi
    show (arrivalResults fetchf cfg π).lookup i
      = some (fetchTask fetchf i (cfg[i]?.getD dA))
    rw [arrival_lookup fetchf cfg π i hmem hlt,
      List.getElem?_eq_getElem hilen]
    rfl
  rw [refresh_portfolio, joinByIndex,
    filterMap_eq_map_of_forall (List.range cfg.length)
      (fun i => (arrivalResults fetchf cfg π).lookup i)
      (fun i => fetchTask fetchf i (cfg[i]?.getD dA)) hsome,
    refresh_canonical, refresh_go_eq_map]
  apply List.map_congr_left
  intro i _
  simp

/-- A two-descriptor portfolio used by the concrete witnesses. -/
def cfgW : List AssetConfig :=
  [⟨AssetType.Stock, "ABC", 10, none⟩, ⟨AssetType.Crypto, "XYZ", 2, none⟩]

/-- Witness fetch outcomes: task 0 succeeds with price 5, any other task
fails. -/
def fetchW : ℕ → AssetConfig → Except String ℚ :=
  fun i _ => if i = 0 then Except.ok 5 else Except.error "boom"

/-- Witness fetch outcomes agreeing with `fetchW` away from task 1, with
task 1 succeeding instead. -/
def fetchWok : ℕ → AssetConfig → Except String ℚ :=
  fun i a => if i = 1 then Except.ok 7 else fetchW i a

/-- A syntactically distinct copy of the `fetchW` outcomes. -/
def fetchWbis : ℕ → AssetConfig → Except String ℚ :=
  fun i _ => if i = 0 then Except.ok 5 else Except.error "boom"

theorem refresh_go_congr (fetchf fetchf' : ℕ → AssetConfig → Except String ℚ)
    (hf : ∀ i a, fetchf i a = fetchf' i a)
    (cfg : List AssetConfig) (k : ℕ) :
    refresh_go fetchf k cfg = refresh_go fetchf' k cfg := by
  induction cfg generalizing k with
  | nil => rfl
  | cons a tl ih => simp [refresh_go, fetchTask, hf, ih]

/-- C1: for every descriptor list, every assignment of per-fetch
success/failure outcomes and every completion order `π` of the concurrent
fetches, `refresh_portfolio` returns exactly one row per descriptor,
index-aligned with the input — row `i`'s descriptor is descriptor `i` —
and the snapshot coincides with the completion-order-free reference
`refresh_canonical`. -/
theorem c1_refresh_aligned (fetchf : ℕ → AssetConfig → Except String ℚ)
    (cfg : List AssetConfig) (π : List ℕ)
    (hπ : π.Perm (List.range cfg.length)) :
    (refresh_portfolio fetchf cfg π).length = cfg.length ∧
    (∀ i : ℕ, (refresh_portfolio fetchf cfg π)[i]?.map Prod.fst = cfg[i]?) ∧
    refresh_portfolio fetchf cfg π = refresh_canonical fetchf cfg := by
  have hc := refresh_portfolio_eq_canonical fetchf cfg π hπ
  refine ⟨?_, ?_, hc⟩
  · rw [hc]
    exact refresh_go_length fetchf cfg 0
  · intro i
    rw [hc, refresh_canonical, refresh_go_getElem?]
    cases h : cfg[i]? <;> simp [fetchTask]

/-- Witness for C1: two descriptors, the first fetch succeeding and the
second failing, with the fetches completing in reverse order. -/
theorem c1_refresh_aligned_witness :
    ([1, 0] : List ℕ).Perm (List.range cfgW.length) ∧
    ((refresh_portfolio fetchW cfgW [1, 0]).length = cfgW.length ∧
     (∀ i : ℕ,
       (refresh_portfolio fetchW cfgW [1, 0])[i]?.map Prod.fst = cfgW[i]?) ∧
     refresh_portfolio fetchW cfgW [1, 0] = refresh_canonical fetchW cfgW) :=
  ⟨by decide, c1_refresh_aligned fetchW cfgW [1, 0] (by decide)⟩

/-- C2: if the fetch for descriptor `i` fails, row `i` of the snapshot is
that descriptor with price exactly `0`, the refresh still returns a
full-length snapshot, and every row `j ≠ i` equals the corresponding row
of any refresh whose fetches agree away from `i` (in particular one where
fetch `i` succeeded). -/
theorem c2_failed_fetch_localized
    (fetchf fetchf' : ℕ → AssetConfig → Except String ℚ)
    (cfg : List AssetConfig) (π π' : List ℕ) (i : ℕ) (a : AssetConfig)
    (e : String)
    (hπ : π.Perm (List.range cfg.length))
    (hπ' : π'.Perm (List.range cfg.length))
    (ha : cfg[i]? = some a)
    (hfail : fetchf i a = Except.error e)
    (hagree : ∀ j, j ≠ i → ∀ b, fetchf j b = fetchf' j b) :
    (refresh_portfolio fetchf cfg π).length = cfg.length ∧
    (refresh_portfolio fetchf cfg π)[i]? = some (a, 0) ∧
    (∀ j, j ≠ i →
      (refresh_portfolio fetchf cfg π)[j]?
        = (refresh_portfolio fetchf' cfg π')[j]?) := by
  have hc := refresh_portfolio_eq_canonical fetchf cfg π hπ
  have hc' := refresh_portfolio_eq_canonical fetchf' cfg π' hπ'
  refine ⟨?_, ?_, ?_⟩
  · rw [hc]
    exact refresh_go_length fetchf cfg 0
  · rw [hc, refresh_canonical, refresh_go_getElem?, ha]
    simp [fetchTask, hfail, Except.toOption]
  · intro j hj
    rw [hc, hc', refresh_canonical, refresh_canonical,
      refresh_go_getElem?, refresh_go_getElem?]
    cases hcj : cfg[j]? with
    | none => rfl
    | some b => simp [fetchTask, hagree j hj b]

/-- Witness for C2: in `cfgW`, fetch 1 fails with error `"boom"`; the
alternative world's fetch 1 succeeds with price `7`. -/
theorem c2_failed_fetch_localized_witness :
    ([1, 0] : List ℕ).Perm (List.range cfgW.length) ∧
    ([0, 1] : List ℕ).Perm (List.range cfgW.length) ∧
    cfgW[1]? = some ⟨AssetType.Crypto, "XYZ", 2, none⟩ ∧
    fetchW 1 ⟨AssetType.Crypto, "XYZ", 2, none⟩ = Except.error "boom" ∧
    ((refresh_portfolio fetchW cfgW [1, 0]).length = cfgW.length ∧
     (refresh_portfolio fetchW cfgW [1, 0])[1]?
       = some (⟨AssetType.Crypto, "XYZ", 2, none⟩, 0) ∧
     (∀ j, j ≠ 1 →
       (refresh_portfolio fetchW cfgW [1, 0])[j]?
         = (refresh_portfolio fetchWok cfgW [0, 1])[j]?)) :=
  ⟨by decide, by decide, rfl, rfl,
    c2_failed_fetch_localized fetchW fetchWok cfgW [1, 0] [0, 1] 1
      ⟨AssetType.Crypto, "XYZ", 2, none⟩ "boom" (by decide) (by decide) rfl
      rfl (fun j hj b => by simp [fetchWok, hj])⟩

/-- C9: refreshing with identical descriptors and identical per-fetch
outcomes yields identical snapshots, whatever the completion orders. -/
theorem c9_refresh_deterministic
    (fetchf fetchf' : ℕ → AssetConfig → Except String ℚ)
    (cfg : List AssetConfig) (π π' : List ℕ)
    (hπ : π.Perm (List.range cfg.length))
    (hπ' : π'.Perm (List.range cfg.length))
    (hf : ∀ i a, fetchf i a = fetchf' i a) :
    refresh_portfolio fetchf cfg π = refresh_portfolio fetchf' cfg π' := by
  rw [refresh_portfolio_eq_canonical fetchf cfg π hπ,
    refresh_portfolio_eq_canonical fetchf' cfg π' hπ']
  exact refresh_go_congr fetchf fetchf' hf cfg 0

/-- Witness for C9: the same fetch outcomes given by two syntactically
different functions, with opposite completion orders. -/
theorem c9_refresh_deterministic_witness :
    ([1, 0] : List ℕ).Perm (List.range cfgW.length) ∧
    ([0, 1] : List ℕ).Perm (List.range cfgW.length) ∧
    (∀ i a, fetchW i a = fetchWbis i a) ∧
    refresh_portfolio fetchW cfgW [1, 0]
      = refresh_portfolio fetchWbis cfgW [0, 1] :=
  ⟨by decide, by decide, fun _ _ => rfl,
    c9_refresh_deterministic fetchW fetchWbis cfgW [1, 0] [0, 1]
      (by decide) (by decide) (fun _ _ => rfl)⟩

/-- C5: the decode path is selected purely by `kind`: a crypto descriptor
whose endpoint returns a body without the nested `data` envelope — in
particular a flat `{price}` body — yields a decode error and hence a
`0.0` row after refresh, while a non-crypto descriptor decodes the flat
`{price}` body successfully. -/
theorem c5_decode_path_by_kind (net netB : String → Option Json)
    (a b : AssetConfig) (fs : List (String × Json)) (p : ℚ)
    (hak : a.kind = AssetType.Crypto)
    (hbody : net (resolve_url a) = some (Json.obj fs))
    (hnodata : fs.lookup "data" = none)
    (hbk : b.kind ≠ AssetType.Crypto)
    (hbodyB : netB (resolve_url b) = some (Json.obj [("price", Json.num p)])) :
    fetch_price net a = Except.error "decode error" ∧
    refresh_canonical (fun _ x => fetch_price net x) [a] = [(a, 0)] ∧
    fetch_price netB b = Except.ok p := by
  have hfa : fetch_price net a = Except.error "decode error" := by
    simp [fetch_price, hak, hbody, decodeCmcResponse, hnodata]
  refine ⟨hfa, ?_, ?_⟩
  · simp [refresh_canonical, refresh_go, fetchTask, hfa, Except.toOption]
  · cases hb : b.kind with
    | Crypto => exact absurd hb hbk
    | Stock => simp [fetch_price, hb, hbodyB, decodeResp, List.lookup]
    | Commodity => simp [fetch_price, hb, hbodyB, decodeResp, List.lookup]

/-- The crypto descriptor used by the C5 and C10 witnesses. -/
def aW : AssetConfig := ⟨AssetType.Crypto, "XYZ", 2, none⟩

/-- The stock descriptor used by the C5 witness. -/
def bW : AssetConfig := ⟨AssetType.Stock, "ABC", 10, none⟩

/-- A network in which the crypto endpoint answers with a flat `{price}`
body. -/
def netFlat : String → Option Json :=
  fun u =>
    if u = crypto_url "XYZ" then some (Json.obj [("price", Json.num 5)])
    else none

/-- A network in which the stock endpoint answers with a flat `{price}`
body. -/
def netStock : String → Option Json :=
  fun u =>
    if u = stock_url "ABC" then some (Json.obj [("price", Json.num 5)])
    else none

/-- Witness for C5: the crypto descriptor `aW` receiving a flat body
fails to decode, while the stock descriptor `bW` decodes it to price 5. -/
theorem c5_decode_path_by_kind_witness :
    aW.kind = AssetType.Crypto ∧
    netFlat (resolve_url aW) = some (Json.obj [("price", Json.num 5)]) ∧
    ([("price", Json.num 5)] : List (String × Json)).lookup "data" = none ∧
    bW.kind ≠ AssetType.Crypto ∧
    netStock (resolve_url bW) = some (Json.obj [("price", Json.num 5)]) ∧
    (fetch_price netFlat aW = Except.error "decode error" ∧
     refresh_canonical (fun _ x => fetch_price netFlat x) [aW] = [(aW, 0)] ∧
     fetch_price netStock bW = Except.ok 5) :=
  ⟨rfl, rfl, rfl, by decide, rfl,
    c5_decode_path_by_kind netFlat netStock aW bW [("price", Json.num 5)] 5
      rfl rfl rfl (by decide) rfl⟩

/-- An association-list lookup misses when no key matches exactly. -/
theorem lookup_eq_none_of_no_key {β : Type} (l : List (String × β))
    (k : String) (h : ∀ p ∈ l, p.1 ≠ k) : l.lookup k = none := by
  induction l with
  | nil => rfl
  | cons x tl ih =>
    obtain ⟨x1, x2⟩ := x
    have hx : x1 ≠ k := h (x1, x2) (List.mem_cons_self (x1, x2) tl)
    have hne : (k == x1) = false := beq_false_of_ne (Ne.symm hx)
    simp only [List.lookup, hne]
    exact ih (fun p hp => h p (List.mem_cons_of_mem _ hp))

/-- C10: the crypto symbol lookup in the decoded `data` map is an exact,
case-sensitive string match — if no key equals the descriptor's symbol
exactly, `fetch_price` fails with `symbol missing` and the refreshed row
degrades to price `0`. -/
theorem c10_symbol_lookup_exact (net : String → Option Json)
    (a : AssetConfig) (body : Json) (resp : CmcResponse)
    (hak : a.kind = AssetType.Crypto)
    (hbody : net (resolve_url a) = some body)
    (hdec : decodeCmcResponse body = some resp)
    (hnokey : ∀ p ∈ resp.data, p.1 ≠ a.symbol) :
    fetch_price net a = Except.error "symbol missing" ∧
    refresh_canonical (fun _ x => fetch_price net x) [a] = [(a, 0)] := by
  have hlook : resp.data.lookup a.symbol = none :=
    lookup_eq_none_of_no_key resp.data a.symbol hnokey
  have hfa : fetch_price net a = Except.error "symbol missing" := by
    simp [fetch_price, hak, hbody, hdec, hlook]
  exact ⟨hfa,
    by simp [refresh_canonical, refresh_go, fetchTask, hfa, Except.toOption]⟩

/-- A well-formed nested crypto body whose `data` key is `"xyz"`,
lower-case, while the descriptor asks for `"XYZ"`. -/
def bodyLower : Json :=
  Json.obj [("data", Json.obj [("xyz", Json.obj [("quote",
    Json.obj [("USD", Json.obj [("price", Json.num 1)])])])])]

/-- A network answering the crypto endpoint with `bodyLower`. -/
def netLower : String → Option Json :=
  fun u => if u = crypto_url "XYZ" then some bodyLower else none

/-- Witness for C10: the body decodes, but its only key `"xyz"` differs
from the symbol `"XYZ"` in case, so the fetch fails and the row is 0. -/
theorem c10_symbol_lookup_exact_witness :
    aW.kind = AssetType.Crypto ∧
    netLower (resolve_url aW) = some bodyLower ∧
    decodeCmcResponse bodyLower
      = some ⟨[("xyz", ⟨[("USD", Json.obj [("price", Json.num 1)])]⟩)]⟩ ∧
    (∀ p ∈ ([("xyz",
        (⟨[("USD", Json.obj [("price", Json.num 1)])]⟩ : CmcRespInner))] :
        List (String × CmcRespInner)), p.1 ≠ aW.symbol) ∧
    (fetch_price netLower aW = Except.error "symbol missing" ∧
     refresh_canonical (fun _ x => fetch_price netLower x) [aW] = [(aW, 0)]) :=
  ⟨rfl, rfl, rfl, by simp [aW],
    c10_symbol_lookup_exact netLower aW bodyLower
      ⟨[("xyz", ⟨[("USD", Json.obj [("price", Json.num 1)])]⟩)]⟩
      rfl rfl rfl (by simp [aW])⟩

/-- C7: `fetch_price` uses a present override endpoint verbatim, otherwise
instantiates the fixed per-kind template; the three templates are
pairwise distinct at every symbol. -/
theorem c7_url_resolution (a : AssetConfig) (u s : String) :
    (a.api = some u → resolve_url a = u) ∧
    (a.api = none → a.kind = AssetType.Stock →
      resolve_url a = stock_url a.symbol) ∧
    (a.api = none → a.kind = AssetType.Crypto →
      resolve_url a = crypto_url a.symbol) ∧
    (a.api = none → a.kind = AssetType.Commodity →
      resolve_url a = commodity_url a.symbol) ∧
    stock_url s ≠ crypto_url s ∧
    stock_url s ≠ commodity_url s ∧
    crypto_url s ≠ commodity_url s := by
  have l1 : "https://example.com/stock/".length = 26 := rfl
  have l2 : "https://example.com/commodity/".length = 30 := rfl
  have l3 :
      "https://pro-api.coinmarketcap.com/v1/cryptocurrency/quotes/latest?symbol=".length
        = 73 := rfl
  have l4 : "&CMC_PRO_API_KEY=".length = 17 := rfl
  have l5 : API_KEY.length = 36 := rfl
  refine ⟨?_, ?_, ?_, ?_, ?_, ?_, ?_⟩
  · intro h
    simp [resolve_url, h]
  · intro h hk
    simp [resolve_url, h, hk]
  · intro h hk
    simp [resolve_url, h, hk]
  · intro h hk
    simp [resolve_url, h, hk]
  · intro h
    have hlen := congrArg String.length h
    simp only [stock_url, crypto_url, String.length_append,
      l1, l3, l4, l5] at hlen
    omega
  · intro h
    have hlen := congrArg String.length h
    simp only [stock_url, commodity_url, String.length_append,
      l1, l2] at hlen
    omega
  · intro h
    have hlen := congrArg String.length h
    simp only [crypto_url, commodity_url, String.length_append,
      l2, l3, l4, l5] at hlen
    omega

/-- Witness for C7: the override endpoint is used verbatim, each kind
without an override gets its own template, and two templates differ at a
concrete symbol. -/
theorem c7_url_resolution_witness :
    resolve_url ⟨AssetType.Stock, "ABC", 10, some "http://localhost/x"⟩
      = "http://localhost/x" ∧
    resolve_url ⟨AssetType.Stock, "ABC", 10, none⟩ = stock_url "ABC" ∧
    resolve_url ⟨AssetType.Crypto, "XYZ", 2, none⟩ = crypto_url "XYZ" ∧
    resolve_url ⟨AssetType.Commodity, "GLD", 1, none⟩ = commodity_url "GLD" ∧
    stock_url "XYZ" ≠ crypto_url "XYZ" :=
  ⟨(c7_url_resolution ⟨AssetType.Stock, "ABC", 10, some "http://localhost/x"⟩
      "http://localhost/x" "XYZ").1 rfl,
   (c7_url_resolution ⟨AssetType.Stock, "ABC", 10, none⟩ "u" "XYZ").2.1
      rfl rfl,
   (c7_url_resolution ⟨AssetType.Crypto, "XYZ", 2, none⟩ "u" "XYZ").2.2.1
      rfl rfl,
   (c7_url_resolution ⟨AssetType.Commodity, "GLD", 1, none⟩ "u"
      "XYZ").2.2.2.1 rfl rfl,
   (c7_url_resolution ⟨AssetType.Stock, "ABC", 10, none⟩ "u"
      "XYZ").2.2.2.2.1⟩

/-- The restore effect never appears inside the loop itself: the only
`restore_terminal` call sits after the loop's `break`. -/
theorem restore_not_mem_runLoop (env : ℕ → IterEnv) (fuel : ℕ) :
    ∀ i : ℕ, Eff.restore ∉ (runLoop env i fuel).1 := by
  induction fuel with
  | zero =>
    intro i
    simp [runLoop]
  | succ n ih =>
    intro i
    cases hd : (env i).drawOk
    · simp [runLoop, hd]
    · cases hp : (env i).poll with
      | pollErr => simp [runLoop, hd, hp]
      | readErr => simp [runLoop, hd, hp]
      | keyEvent k =>
        by_cases hk : k = KeyCode.qKey ∨ k = KeyCode.esc
        · simp [runLoop, hd, hp, hk]
        · simp [runLoop, hd, hp, hk, ih (i + 1)]
      | noEvent => simp [runLoop, hd, hp, ih (i + 1)]
      | otherEvent => simp [runLoop, hd, hp, ih (i + 1)]

/-- If the loop exits by `break` (quit key), its trace ends with the poll
that observed the quit key. -/
theorem runLoop_quit_ends_poll (env : ℕ → IterEnv) (fuel : ℕ) :
    ∀ i : ℕ, (runLoop env i fuel).2 = LoopExit.quit →
      ∃ t, (runLoop env i fuel).1 = t ++ [Eff.poll] := by
  induction fuel with
  | zero =>
    intro i h
    simp [runLoop] at h
  | succ n ih =>
    intro i h
    cases hd : (env i).drawOk
    · simp [runLoop, hd] at h
    · cases hp : (env i).poll with
      | pollErr => simp [runLoop, hd, hp] at h
      | readErr => simp [runLoop, hd, hp] at h
      | keyEvent k =>
        by_cases hk : k = KeyCode.qKey ∨ k = KeyCode.esc
        · refine ⟨[Eff.tick, Eff.refresh, Eff.draw], ?_⟩
          simp [runLoop, hd, hp, hk]
        · simp only [runLoop, hd, hp] at h ⊢
          rw [if_pos trivial] at h ⊢
          rw [if_neg hk] at h ⊢
          obtain ⟨t, ht⟩ := ih (i + 1) h
          exact ⟨Eff.tick :: Eff.refresh :: Eff.draw :: Eff.poll :: t,
            by simp [ht]⟩
      | noEvent =>
        simp only [runLoop, hd, hp] at h ⊢
        rw [if_pos trivial] at h ⊢
        obtain ⟨t, ht⟩ := ih (i + 1) h
        exact ⟨Eff.tick :: Eff.refresh :: Eff.draw :: Eff.poll :: t,
          by simp [ht]⟩
      | otherEvent =>
        simp only [runLoop, hd, hp] at h ⊢
        rw [if_pos trivial] at h ⊢
        obtain ⟨t, ht⟩ := ih (i + 1) h
        exact ⟨Eff.tick :: Eff.refresh :: Eff.draw :: Eff.poll :: t,
          by simp [ht]⟩

/-- C4: whenever `main` exits through the quit path, the trace ends with
the quit-observing poll followed immediately by the single terminal
teardown — no tick, refresh or render follows the quit observation, and
`restore` occurs exactly once in the whole run. -/
theorem c4_quit_clean_shutdown (env : ℕ → IterEnv) (fuel : ℕ)
    (h : (main_model env fuel).2 = MainExit.ok) :
    ∃ t, (main_model env fuel).1 = t ++ [Eff.poll, Eff.restore] ∧
      (main_model env fuel).1.count Eff.restore = 1 := by
  rcases hrun : runLoop env 0 fuel with ⟨tr, ex⟩
  cases ex with
  | errExit =>
    exfalso
    simp [main_model, hrun] at h
  | fuelOut =>
    exfalso
    simp [main_model, hrun] at h
  | quit =>
    have hq : (runLoop env 0 fuel).2 = LoopExit.quit := by rw [hrun]
    obtain ⟨t, ht⟩ := runLoop_quit_ends_poll env fuel 0 hq
    have htr : tr = t ++ [Eff.poll] := by
      rw [hrun] at ht
      exact ht
    have hnr : Eff.restore ∉ tr := by
      have hm := restore_not_mem_runLoop env fuel 0
      rw [hrun] at hm
      exact hm
    have hmain : (main_model env fuel).1 = tr ++ [Eff.restore] := by
      simp [main_model, hrun]
    refine ⟨t, ?_, ?_⟩
    · rw [hmain, htr, List.append_assoc]
      rfl
    · rw [hmain, List.count_append, List.count_eq_zero_of_not_mem hnr]
      rfl

/-- The environment in which the very first poll observes the quit key. -/
def envQuit : ℕ → IterEnv :=
  fun _ => ⟨true, PollOutcome.keyEvent KeyCode.qKey⟩

/-- Witness for C4: one iteration ending in a `q` keypress. -/
theorem c4_quit_clean_shutdown_witness :
    (main_model envQuit 1).2 = MainExit.ok ∧
    ∃ t, (main_model envQuit 1).1 = t ++ [Eff.poll, Eff.restore] ∧
      (main_model envQuit 1).1.count Eff.restore = 1 :=
  ⟨rfl, c4_quit_clean_shutdown envQuit 1 rfl⟩

/-- The per-iteration environment in which `term.draw` always fails. -/
def envDrawFail : ℕ → IterEnv := fun _ => ⟨false, PollOutcome.noEvent⟩

/-- C3, evaluated at the failing input: when `term.draw` returns an error
in the first iteration, `main` exits with that error and the trace
contains no `restore` effect — the `?` on `term.draw` propagates the
error past the `restore_terminal` call, which only the quit `break`
reaches, so this exit path leaves the terminal un-restored. -/
theorem c3_draw_error_skips_restore :
    main_model envDrawFail 1
      = ([Eff.tick, Eff.refresh, Eff.draw], MainExit.err) ∧
    Eff.restore ∉ (main_model envDrawFail 1).1 :=
  ⟨rfl, by decide⟩

/-- Along any loop trace, between two consecutive ticks exactly one poll
occurs: the checker `pollsBetween` accepts every trace, started before
the first tick (`none`) or just after a completed iteration's poll
(`some 1`), with or without the final restore effect. -/
theorem pollsBetween_runLoop (env : ℕ → IterEnv) (fuel : ℕ) :
    ∀ (i : ℕ) (st : Option ℕ), (st = none ∨ st = some 1) →
      pollsBetween ((runLoop env i fuel).1) st = true ∧
      pollsBetween ((runLoop env i fuel).1 ++ [Eff.restore]) st = true := by
  induction fuel with
  | zero =>
    intro i st hst
    rcases hst with h | h <;> subst h <;>
      exact ⟨by simp [runLoop, pollsBetween],
        by simp [runLoop, pollsBetween]⟩
  | succ n ih =>
    intro i st hst
    have hrec := ih (i + 1) (some 1) (Or.inr rfl)
    have hstep : ∀ st' : Option ℕ, (st' = none ∨ st' = some 1) →
        pollsBetween ((runLoop env i (n + 1)).1) st' = true ∧
        pollsBetween ((runLoop env i (n + 1)).1 ++ [Eff.restore]) st' = true := by
      intro st' hst'
      cases hd : (env i).drawOk with
      | false =>
        rcases hst' with h | h <;> subst h <;>
          exact ⟨by simp [runLoop, hd, pollsBetween],
            by simp [runLoop, hd, pollsBetween]⟩
      | true =>
        cases hp : (env i).poll with
        | pollErr =>
          rcases hst' with h | h <;> subst h <;>
            exact ⟨by simp [runLoop, hd, hp, pollsBetween],
              by simp [runLoop, hd, hp, pollsBetween]⟩
        | readErr =>
          rcases hst' with h | h <;> subst h <;>
            exact ⟨by simp [runLoop, hd, hp, pollsBetween],
              by simp [runLoop, hd, hp, pollsBetween]⟩
        | keyEvent k =>
          by_cases hk : k = KeyCode.qKey ∨ k = KeyCode.esc
          · rcases hst' with h | h <;> subst h <;>
              exact ⟨by simp [runLoop, hd, hp, hk, pollsBetween],
                by simp [runLoop, hd, hp, hk, pollsBetween]⟩
          · rcases hst' with h | h <;> subst h <;>
              exact ⟨by simp [runLoop, hd, hp, hk, pollsBetween, hrec.1],
                by simp [runLoop, hd, hp, hk, pollsBetween, hrec.2]⟩
        | noEvent =>
          rcases hst' with h | h <;> subst h <;>
            exact ⟨by simp [runLoop, hd, hp, pollsBetween, hrec.1],
              by simp [runLoop, hd, hp, pollsBetween, hrec.2]⟩
        | otherEvent =>
          rcases hst' with h | h <;> subst h <;>
            exact ⟨by simp [runLoop, hd, hp, pollsBetween, hrec.1],
              by simp [runLoop, hd, hp, pollsBetween, hrec.2]⟩
    exact hstep st hst

/-- C8 (amended): input polling is tied 1:1 to ticks — between two
consecutive ticks the loop performs exactly one input poll, whose
non-blocking wait of 100 ms is much shorter than the 30 s tick period. -/
theorem c8_single_poll_per_tick (env : ℕ → IterEnv) (fuel : ℕ) :
    pollsBetween (main_model env fuel).1 none = true ∧
    POLL_WAIT_MS < TICK_PERIOD_MS := by
  constructor
  · have hb := pollsBetween_runLoop env fuel 0 none (Or.inl rfl)
    rcases hrun : runLoop env 0 fuel with ⟨tr, ex⟩
    rw [hrun] at hb
    cases ex <;> simp [main_model, hrun, hb.1, hb.2]
  · decide

/-- The environment in which polling never observes an event. -/
def envIdle : ℕ → IterEnv := fun _ => ⟨true, PollOutcome.noEvent⟩

/-- Counterexample to C8 as stated: in a quiet two-iteration run the
segment strictly between the first and second tick contains exactly one
poll, so the loop does not perform multiple polls between ticks. -/
theorem c8_multiple_polls_refuted :
    (main_model envIdle 2).1
      = [Eff.tick, Eff.refresh, Eff.draw, Eff.poll,
         Eff.tick, Eff.refresh, Eff.draw, Eff.poll] ∧
    ¬ 2 ≤ (gapAfterFirstTick (main_model envIdle 2).1).count Eff.poll :=
  ⟨rfl, by decide⟩

/-- C6: the rendered table body has exactly one row per snapshot entry in
snapshot order, whose cells are the debug-printed kind, the symbol, the
quantity as given, the price to two decimals and the value
`price × quantity` to two decimals, rounded only at render time; at the
spec's example snapshot the rendered values are `50.00` and `200.00`. -/
theorem c6_render_rows (rows : List (AssetConfig × ℚ)) :
    (draw_ui rows).length = rows.length ∧
    (∀ i : ℕ, (draw_ui rows)[i]?
      = rows[i]?.map (fun r =>
          [kindDebug r.1.kind, r.1.symbol, qtyDisplay r.1.quantity,
           fmt2 r.2, fmt2 (r.2 * r.1.quantity)])) ∧
    draw_ui [(⟨AssetType.Stock, "ABC", 10, none⟩, 5),
             (⟨AssetType.Crypto, "XYZ", 2, none⟩, 100)]
      = [["Stock", "ABC", "10", "5.00", "50.00"],
         ["Crypto", "XYZ", "2", "100.00", "200.00"]] := by
  have h5 : fmt2 (5 : ℚ) = "5.00" := by
    have h : ⌊(5 : ℚ) * 100 + 1 / 2⌋ = 500 := by
      norm_num [Int.floor_eq_iff]
    simp only [fmt2, h]
    decide
  have h50 : fmt2 ((5 : ℚ) * 10) = "50.00" := by
    have h : ⌊(5 : ℚ) * 10 * 100 + 1 / 2⌋ = 5000 := by
      norm_num [Int.floor_eq_iff]
    simp only [fmt2, h]
    decide
  have h100 : fmt2 (100 : ℚ) = "100.00" := by
    have h : ⌊(100 : ℚ) * 100 + 1 / 2⌋ = 10000 := by
      norm_num [Int.floor_eq_iff]
    simp only [fmt2, h]
    decide
  have h200 : fmt2 ((100 : ℚ) * 2) = "200.00" := by
    have h : ⌊(100 : ℚ) * 2 * 100 + 1 / 2⌋ = 20000 := by
      norm_num [Int.floor_eq_iff]
    simp only [fmt2, h]
    decide
  refine ⟨by simp [draw_ui], ?_, ?_⟩
  · intro i
    simp [draw_ui]
  · simp only [draw_ui, List.map_cons, List.map_nil]
    rw [h5, h50, h100, h200]
    decide
